import Mathlib

/-!
Verification of the config-file round-trip engine of the Ghostty Config
Editor repository.

The engine is shallow-embedded here from the TypeScript sources:

* `src/lib/parser/propertiesParser.ts` — `parseLine`, `parseConfigFile`;
* `src/lib/parser/propertiesSaver.ts` — `saveConfigFile`, `buildSaveOptions`;
* `src/stores/configStore.ts` — `saveConfig`.

JavaScript strings are modelled as `List Char` (`Str`); the JS string
operations used by the sources (`split`, `trim`, `indexOf`, `substring`,
`startsWith`, `endsWith`, template literals) are re-implemented below with
JS semantics.  JS `Map` values (insertion-ordered, `set` keeps the position
of an existing key) are modelled as association lists.
-/

set_option maxHeartbeats 1000000

namespace GhosttyConfig

/-- JS strings, modelled as lists of characters. -/
abbrev Str := List Char

/-- Lift a Lean string literal to the character-list model. -/
def lit (s : String) : Str := s.toList

/-- The whitespace characters relevant to the config format (the subset of
the JS `trim` whitespace class that can occur in these files). -/
def isWs (c : Char) : Bool := c = ' ' || c = '\t' || c = '\r' || c = '\n'

/-- Left part of JS `String.prototype.trim`. -/
def trimL (s : Str) : Str := s.dropWhile isWs

/-- Right part of JS `String.prototype.trim`. -/
def trimR (s : Str) : Str := (s.reverse.dropWhile isWs).reverse

/-- JS `s.trim()`. -/
def trimS (s : Str) : Str := trimL (trimR s)

/-- JS `s.split(sep)` for a one-character separator: always returns at least
one piece, and a trailing separator yields a trailing empty piece. -/
def splitCh (sep : Char) : Str → List Str
  | [] => [[]]
  | c :: cs =>
    let r := splitCh sep cs
    if c = sep then [] :: r else (c :: r.headI) :: r.tail

/-- JS array join with a one-character separator. -/
def joinCh (sep : Char) : List Str → Str
  | [] => []
  | [x] => x
  | x :: y :: t => x ++ sep :: joinCh sep (y :: t)

/-- JS `s.indexOf(c)`: index of the first occurrence, `none` for `-1`. -/
def indexOfCh : Str → Char → Option Nat
  | [], _ => none
  | c :: cs, t => if c = t then some 0 else (indexOfCh cs t).map (· + 1)

/-- JS `s.endsWith(nl)` for the one-character suffix `\n`. -/
def endsNl (s : Str) : Bool :=
  match s.getLast? with
  | some c => c = '\n'
  | none => false

/-- Decimal rendering of a line number, as JS template literals do. -/
def natToStr (n : Nat) : Str := (toString n).toList

theorem splitCh_ne_nil (sep : Char) (s : Str) : splitCh sep s ≠ [] := by
  cases s with
  | nil => simp [splitCh]
  | cons c cs => by_cases hc : c = sep <;> simp [splitCh, hc]

theorem splitCh_sep_cons (sep : Char) (b : Str) :
    splitCh sep (sep :: b) = [] :: splitCh sep b := by
  simp [splitCh]

theorem splitCh_cons_of_ne (sep c : Char) (b : Str) (hc : c ≠ sep) :
    splitCh sep (c :: b) =
      (c :: (splitCh sep b).headI) :: (splitCh sep b).tail := by
  simp [splitCh, hc]

theorem joinCh_cons_cons (sep : Char) (c : Char) (h : Str) (t : List Str) :
    joinCh sep ((c :: h) :: t) = c :: joinCh sep (h :: t) := by
  cases t <;> simp [joinCh]

theorem joinCh_splitCh (sep : Char) (s : Str) :
    joinCh sep (splitCh sep s) = s := by
  induction s with
  | nil => rfl
  | cons c cs ih =>
    obtain ⟨hd, tl, hsp⟩ : ∃ hd tl, splitCh sep cs = hd :: tl := by
      cases h : splitCh sep cs with
      | nil => exact absurd h (splitCh_ne_nil sep cs)
      | cons hd tl => exact ⟨hd, tl, rfl⟩
    rw [hsp] at ih
    by_cases hc : c = sep
    · subst hc
      rw [splitCh_sep_cons, hsp]
      cases tl <;> simp_all [joinCh]
    · rw [splitCh_cons_of_ne sep c cs hc, hsp]
      simp only [List.headI, List.tail]
      rw [joinCh_cons_cons, ih]

theorem splitCh_of_no_sep (sep : Char) (s : Str) (h : ∀ c ∈ s, c ≠ sep) :
    splitCh sep s = [s] := by
  induction s with
  | nil => rfl
  | cons c cs ih =>
    have hc : c ≠ sep := h c (by simp)
    have ih' := ih (fun x hx => h x (by simp [hx]))
    rw [splitCh_cons_of_ne sep c cs hc, ih']
    simp

theorem splitCh_append_sep (sep : Char) (a b : Str) (h : ∀ c ∈ a, c ≠ sep) :
    splitCh sep (a ++ sep :: b) = a :: splitCh sep b := by
  induction a with
  | nil => simpa using splitCh_sep_cons sep b
  | cons c cs ih =>
    have hc : c ≠ sep := h c (by simp)
    have ih' := ih (fun x hx => h x (by simp [hx]))
    rw [List.cons_append, splitCh_cons_of_ne sep c _ hc, ih']
    simp

theorem splitCh_joinCh (sep : Char) (L : List Str) (hL : L ≠ [])
    (h : ∀ l ∈ L, ∀ c ∈ l, c ≠ sep) :
    splitCh sep (joinCh sep L) = L := by
  induction L with
  | nil => exact absurd rfl hL
  | cons x t ih =>
    cases t with
    | nil =>
      simp only [joinCh]
      exact splitCh_of_no_sep sep x (h x (by simp))
    | cons y t' =>
      have hx : ∀ c ∈ x, c ≠ sep := h x (by simp)
      have ih' := ih (by simp) (fun l hl c hc => h l (by simp [hl]) c hc)
      simp only [joinCh]
      rw [splitCh_append_sep sep x (joinCh sep (y :: t')) hx, ih']

theorem joinCh_concat (sep : Char) (M : List Str) (x : Str) (hM : M ≠ []) :
    joinCh sep (M ++ [x]) = joinCh sep M ++ sep :: x := by
  induction M with
  | nil => exact absurd rfl hM
  | cons a t ih =>
    cases t with
    | nil => simp [joinCh]
    | cons b t' =>
      have h2 := ih (by simp)
      calc joinCh sep ((a :: b :: t') ++ [x])
          = a ++ sep :: joinCh sep ((b :: t') ++ [x]) := rfl
        _ = a ++ sep :: (joinCh sep (b :: t') ++ sep :: x) := by rw [h2]
        _ = (a ++ sep :: joinCh sep (b :: t')) ++ sep :: x := by simp

theorem endsNl_append_nl (s : Str) : endsNl (s ++ ['\n']) = true := by
  simp [endsNl, List.getLast?_concat]

theorem endsNl_false_of_no_nl (s : Str) (h : ∀ c ∈ s, c ≠ '\n') :
    endsNl s = false := by
  unfold endsNl
  cases hl : s.getLast? with
  | none => rfl
  | some c =>
    have : c ∈ s := List.mem_of_getLast?_eq_some hl
    simp [h c this]

theorem endsNl_joinCh_of_last_nil (L : List Str) (h2 : 2 ≤ L.length)
    (hlast : L.getLast? = some []) : endsNl (joinCh '\n' L) = true := by
  obtain ⟨M, hM⟩ : ∃ M, L = M ++ [[]] := List.getLast?_eq_some_iff.mp hlast
  have hMne : M ≠ [] := by
    intro h
    subst h
    simp [hM] at h2
  rw [hM, joinCh_concat '\n' M [] hMne]
  have : joinCh '\n' M ++ '\n' :: ([] : Str) = (joinCh '\n' M) ++ ['\n'] := by simp
  rw [this, endsNl_append_nl]

theorem dropWhile_eq_cons_head_false {p : Char → Bool} {x : Str} {c : Char}
    {t : Str} (h : x.dropWhile p = c :: t) : p c = false := by
  induction x with
  | nil => simp [List.dropWhile] at h
  | cons a l ih =>
    rw [List.dropWhile_cons] at h
    by_cases hp : p a = true
    · rw [if_pos hp] at h; exact ih h
    · rw [if_neg hp] at h
      cases h
      simpa using hp

theorem trimR_of_trimS_self {k : Str} (h : trimS k = k) : trimR k = k := by
  have h1 : (trimS k).length ≤ (trimR k).length := by
    unfold trimS trimL
    exact (List.dropWhile_suffix isWs).sublist.length_le
  have h2 : (trimR k).length ≤ k.length := by
    unfold trimR
    calc ((k.reverse.dropWhile isWs).reverse).length
        = (k.reverse.dropWhile isWs).length := by simp
      _ ≤ k.reverse.length := (List.dropWhile_suffix isWs).sublist.length_le
      _ = k.length := by simp
  rw [h] at h1
  have hlen : (trimR k).length = k.length := le_antisymm h2 h1
  have hsub : trimR k <+: k := by
    unfold trimR
    have h3 := (List.dropWhile_suffix (l := k.reverse) isWs).reverse
    simpa using h3
  exact hsub.eq_of_length hlen

theorem head_not_ws_of_trimS_self {k : Str} {c : Char} {t : Str}
    (h : trimS k = k) (hk : k = c :: t) : isWs c = false := by
  have hr := trimR_of_trimS_self h
  have h2 : trimL (trimR k) = k := h
  rw [hr] at h2
  unfold trimL at h2
  rw [hk] at h2
  exact dropWhile_eq_cons_head_false h2

theorem trimR_append_of_ne (a b : Str) (hb : trimR b ≠ []) :
    trimR (a ++ b) = a ++ trimR b := by
  unfold trimR at *
  rw [List.reverse_append, List.dropWhile_append]
  have hbne : (b.reverse.dropWhile isWs).isEmpty = false := by
    rw [List.isEmpty_eq_false]
    intro h
    apply hb
    simp [h]
  rw [hbne]
  simp

theorem trimR_append_of_empty (a b : Str) (hb : trimR b = []) :
    trimR (a ++ b) = trimR a := by
  unfold trimR at *
  rw [List.reverse_append, List.dropWhile_append]
  have hbe : (b.reverse.dropWhile isWs).isEmpty = true := by
    rw [List.isEmpty_iff]
    have h2 := congrArg List.reverse hb
    simpa using h2
  rw [hbe]
  simp

theorem trimL_cons_of_not_ws {c : Char} (s : Str) (h : isWs c = false) :
    trimL (c :: s) = c :: s := by
  unfold trimL
  rw [List.dropWhile_cons, if_neg (by simp [h])]

theorem trimS_append_left {k : Str} (r : Str) (hk : trimS k = k) (hne : k ≠ []) :
    trimS (k ++ r) = k ++ trimR r := by
  obtain ⟨c, t, hct⟩ : ∃ c t, k = c :: t := by
    cases k with
    | nil => exact absurd rfl hne
    | cons c t => exact ⟨c, t, rfl⟩
  have hcw : isWs c = false := head_not_ws_of_trimS_self hk hct
  by_cases hr : trimR r = []
  · unfold trimS
    rw [trimR_append_of_empty k r hr, trimR_of_trimS_self hk, hr, List.append_nil]
    rw [hct]
    exact trimL_cons_of_not_ws t hcw
  · unfold trimS
    rw [trimR_append_of_ne k r hr, hct, List.cons_append]
    exact trimL_cons_of_not_ws _ hcw

theorem trimS_ws_cons {c : Char} (s : Str) (h : isWs c = true) :
    trimS (c :: s) = trimS s := by
  by_cases hr : trimR s = []
  · have h1 : trimR (c :: s) = trimR [c] := trimR_append_of_empty [c] s hr
    have h2 : trimR [c] = [] := by
      unfold trimR
      simp [List.dropWhile, h]
    unfold trimS
    rw [h1, h2, hr]
  · have h1 : trimR (c :: s) = c :: trimR s := by
      have h2 := trimR_append_of_ne [c] s hr
      simpa using h2
    unfold trimS
    rw [h1]
    unfold trimL
    rw [List.dropWhile_cons, if_pos (by simp [h])]

theorem indexOfCh_append_sep (a b : Str) (t : Char) (h : ∀ c ∈ a, c ≠ t) :
    indexOfCh (a ++ t :: b) t = some a.length := by
  induction a with
  | nil => simp [indexOfCh]
  | cons c cs ih =>
    have hc : c ≠ t := h c (by simp)
    have ih' := ih (fun x hx => h x (by simp [hx]))
    simp [indexOfCh, hc, ih']

theorem indexOfCh_none (a : Str) (t : Char) (h : ∀ c ∈ a, c ≠ t) :
    indexOfCh a t = none := by
  induction a with
  | nil => rfl
  | cons c cs ih =>
    have hc : c ≠ t := h c (by simp)
    have ih' := ih (fun x hx => h x (by simp [hx]))
    simp [indexOfCh, hc, ih']

/-! ## Association-list model of JS `Map` and `Set`

JS `Map` preserves insertion order, and `set` on an existing key keeps its
original position; `Set.add` appends.  `mapGet`/`mapHas`/`mapSet` and
`listHas` mirror `Map.get`/`Map.has`/`Map.set` and `Set.has`. -/

/-- JS `Map.prototype.get` (with `undefined` as `none`). -/
def mapGet {α : Type} : List (Str × α) → Str → Option α
  | [], _ => none
  | (k', v) :: rest, k => if k' = k then some v else mapGet rest k

/-- JS `Map.prototype.set`: overwrite in place, or append when absent. -/
def mapSet {α : Type} : List (Str × α) → Str → α → List (Str × α)
  | [], k, v => [(k, v)]
  | (k', v') :: rest, k, v =>
    if k' = k then (k, v) :: rest else (k', v') :: mapSet rest k v

/-- JS `Set.prototype.has` on a set of strings. -/
def listHas : List Str → Str → Bool
  | [], _ => false
  | k' :: rest, k => if k' = k then true else listHas rest k

/-! ## Data model

Shallow embedding of `src/types/config.ts` and of the schema entries the
parser and saver consult.  A schema entry (`ConfigProperty` in
`src/types/schema.ts`) enters the engine only through `propertyDef.isRepeatable`
and through `validatePropertyValue(propertyDef, value)`; the latter involves
JS float parsing and `RegExp`, which have no shallow embedding, so a schema
entry is modelled by its repeatability flag together with an arbitrary
validation function `Str → Option Str` standing for
`value => validatePropertyValue(def, value)`.  Every theorem below holds for
every such function, hence in particular for the real validator. -/

/-- `ConfigLineType` from `src/types/config.ts`. -/
inductive ConfigLineType where
  | comment
  | blank
  | property
  | unknown
deriving DecidableEq, Repr

/-- `ConfigLine` from `src/types/config.ts`. -/
structure ConfigLine where
  type : ConfigLineType
  content : Str
  lineNumber : Nat
  key : Option Str
  value : Option Str
  raw : Str
deriving DecidableEq, Repr

/-- `InvalidLine` from `src/types/config.ts`. -/
structure InvalidLine where
  lineNumber : Nat
  content : Str
  error : Str
deriving DecidableEq, Repr

/-- The `type` field of `ConfigWarning` from `src/types/config.ts`. -/
inductive ConfigWarnKind where
  | unknownProperty
  | validationError
  | deprecated
  | parseError
deriving DecidableEq, Repr

/-- `ConfigWarning` from `src/types/config.ts` (the sources always supply a
line number). -/
structure ConfigWarning where
  type : ConfigWarnKind
  lineNumber : Nat
  key : Option Str
  message : Str
deriving DecidableEq, Repr

/-- A value in the value map: JS `string | string[]`. -/
inductive ValueV where
  | s (v : Str)
  | arr (vs : List Str)
deriving DecidableEq, Repr

/-- A schema entry as seen by the engine (see the section comment above). -/
structure PropertyDef where
  isRepeatable : Bool
  validate : Str → Option Str

/-- `PropertyMap` from `src/lib/schemaQueries.ts`: key to schema entry. -/
abbrev PMap := List (Str × PropertyDef)

/-- `propertyMap?.get(key)?.isRepeatable || false`, as computed in both
`parseConfigFile` and `saveConfigFile`. -/
def isRepeatableOf (pm : Option PMap) (key : Str) : Bool :=
  match pm with
  | none => false
  | some m =>
    match mapGet m key with
    | some d => d.isRepeatable
    | none => false

/-- `ParseResult` from `src/types/config.ts`. -/
structure ParseResult where
  lines : List ConfigLine
  valid : List (Str × ValueV)
  invalid : List InvalidLine
  warnings : List ConfigWarning
  unknownProperties : List (Str × Str)
deriving Repr

/-- `ParsedConfigFile` from `src/types/config.ts`. -/
structure ParsedConfigFile where
  lines : List ConfigLine
  propertyMap : List (Str × List Nat)
  parseResult : ParseResult
deriving Repr

/-! ## Line parser

Embedding of `parseLine` and `parseConfigFile` from
`src/lib/parser/propertiesParser.ts`. -/

/-- `trimmed.startsWith(hashMark)`. -/
def startsHash : Str → Bool
  | c :: _ => c = '#'
  | [] => false

/-- JS truthiness of `parsedLine.key`: defined and non-empty. -/
def keyTruthy : Option Str → Bool
  | some (_ :: _) => true
  | _ => false

/-- `parseLine(line, lineNumber, propertyMap)` from
`src/lib/parser/propertiesParser.ts`. -/
def parseLine (line : Str) (lineNumber : Nat) (pm : Option PMap) : ConfigLine :=
  let trimmed := trimS line
  if trimmed = [] then
    ⟨.blank, line, lineNumber, none, none, line⟩
  else if startsHash trimmed then
    ⟨.comment, line, lineNumber, none, none, line⟩
  else
    match indexOfCh line '=' with
    | none => ⟨.unknown, line, lineNumber, none, none, line⟩
    | some equalIndex =>
      let key := trimS (line.take equalIndex)
      let value := trimS (line.drop (equalIndex + 1))
      let isKnown := match pm with
        | none => true
        | some m => (mapGet m key).isSome
      ⟨if isKnown then .property else .unknown, line, lineNumber,
        some key, some value, line⟩

/-- The accumulators of the `parseConfigFile` loop. -/
structure PAcc where
  lines : List ConfigLine
  valid : List (Str × ValueV)
  invalid : List InvalidLine
  warnings : List ConfigWarning
  unknownProperties : List (Str × Str)
  propMap : List (Str × List Nat)

/-- `propMap` bookkeeping: create the entry if absent, then push the line
number. -/
def propMapPush (m : List (Str × List Nat)) (k : Str) (n : Nat) :
    List (Str × List Nat) :=
  match mapGet m k with
  | some ns => mapSet m k (ns ++ [n])
  | none => mapSet m k [n]

/-- `propMap.get(key)![0]`, used in the duplicate-key message. -/
def firstLineNum (m : List (Str × List Nat)) (k : Str) : Nat :=
  match mapGet m k with
  | some (n :: _) => n
  | _ => 0

/-- The existing array for a repeatable key (`valid.get(key) as string[]`);
a repeatable key only ever holds an array, so the fallback is unreachable. -/
def prevArr (valid : List (Str × ValueV)) (k : Str) : List Str :=
  match mapGet valid k with
  | some (.arr xs) => xs
  | _ => []

/-- The duplicate-key warning message. -/
def dupMessage (k : Str) (firstLine : Nat) : Str :=
  lit "Duplicate property \x27" ++ k ++ lit "\x27 found (first defined at line "
    ++ natToStr firstLine ++ lit ")"

/-- The unknown-key warning message. -/
def unknownMessage (k : Str) : Str :=
  lit "Unknown property \x27" ++ k ++ lit "\x27 (not in schema)"

/-- The malformed-line error message stored in `InvalidLine.error`. -/
def invalidFormatMessage : Str :=
  lit "Invalid line format (expected: key = value)"

/-- The validation warnings contributed by one property line: present when
the schema entry exists, the value is non-empty, and the validator rejects
it. -/
def valWarnsOf (pd : Option PropertyDef) (value : Str) (n : Nat) (k : Str) :
    List ConfigWarning :=
  match pd with
  | some d =>
    if value ≠ [] then
      match d.validate value with
      | some err => [⟨.validationError, n, some k, err⟩]
      | none => []
    else []
  | none => []

/-- One iteration of the `parseConfigFile` loop, on `(lineNumber, lineText)`. -/
def parseStep (pm : Option PMap) (acc : PAcc) (p : Nat × Str) : PAcc :=
  let lineNumber := p.1
  let pl := parseLine p.2 lineNumber pm
  let acc0 : PAcc := { acc with lines := acc.lines ++ [pl] }
  if pl.type = .property ∧ keyTruthy pl.key = true then
    let key := pl.key.getD []
    let value := pl.value.getD []
    let newPropMap := propMapPush acc0.propMap key lineNumber
    let pd := pm.bind (fun m => mapGet m key)
    let isRep := isRepeatableOf pm key
    let dupWarns : List ConfigWarning :=
      if isRep = false ∧ (mapGet acc0.valid key).isSome = true then
        [⟨.parseError, lineNumber, some key,
          dupMessage key (firstLineNum newPropMap key)⟩]
      else []
    let newValid :=
      if isRep then mapSet acc0.valid key (.arr (prevArr acc0.valid key ++ [value]))
      else mapSet acc0.valid key (.s value)
    let valWarns : List ConfigWarning := valWarnsOf pd value lineNumber key
    { acc0 with propMap := newPropMap, valid := newValid,
                warnings := acc0.warnings ++ dupWarns ++ valWarns }
  else if pl.type = .unknown ∧ keyTruthy pl.key = true then
    { acc0 with
      unknownProperties := mapSet acc0.unknownProperties (pl.key.getD [])
        (pl.value.getD []),
      warnings := acc0.warnings ++
        [⟨.unknownProperty, lineNumber, pl.key, unknownMessage (pl.key.getD [])⟩] }
  else if pl.type = .unknown ∧ keyTruthy pl.key = false ∧ trimS pl.content ≠ [] then
    { acc0 with invalid := acc0.invalid ++
        [⟨lineNumber, pl.content, invalidFormatMessage⟩] }
  else acc0

/-- Pair every element with its 1-based position, starting at `n`. -/
def withIdx {α : Type} : Nat → List α → List (Nat × α)
  | _, [] => []
  | n, a :: as => (n, a) :: withIdx (n + 1) as

/-- `parseConfigFile(content, propertyMap)` from
`src/lib/parser/propertiesParser.ts`. -/
def parseConfigFile (content : Str) (pm : Option PMap) : ParsedConfigFile :=
  let fileLines := splitCh '\n' content
  let acc := (withIdx 1 fileLines).foldl (parseStep pm) ⟨[], [], [], [], [], []⟩
  { lines := acc.lines
    propertyMap := acc.propMap
    parseResult :=
      { lines := acc.lines
        valid := acc.valid
        invalid := acc.invalid
        warnings := acc.warnings
        unknownProperties := acc.unknownProperties } }

/-! ## Merge saver

Embedding of `saveConfigFile` and `buildSaveOptions` from
`src/lib/parser/propertiesSaver.ts`. -/

/-- `SaveOptions` from `src/lib/parser/propertiesSaver.ts`. -/
structure SaveOptions where
  modifiedProperties : List (Str × ValueV)
  removedProperties : List Str
  newProperties : List (Str × ValueV)
  propertyMap : Option PMap

/-- The canonical serialized directive line: the template literal
`key = value` with one space on each side of the separator. -/
def canonLine (key v : Str) : Str := key ++ lit " = " ++ v

/-- JS string interpolation of `newValue[0]` when the array is empty. -/
def undefinedStr : Str := lit "undefined"

/-- The saver loop state: emitted lines and the `processedProperties` set. -/
structure SState where
  out : List Str
  processed : List Str

/-- One iteration of the `saveConfigFile` loop over the original lines. -/
def saveLine (opts : SaveOptions) (st : SState) (line : ConfigLine) : SState :=
  if line.type = .comment ∨ line.type = .blank then
    { st with out := st.out ++ [line.content] }
  else if line.type = .unknown then
    { st with out := st.out ++ [line.content] }
  else if line.type = .property ∧ keyTruthy line.key = true then
    let key := line.key.getD []
    if listHas opts.removedProperties key then st
    else
      match mapGet opts.modifiedProperties key with
      | some newValue =>
        let isRep := isRepeatableOf opts.propertyMap key
        match newValue with
        | .arr xs =>
          if isRep then
            if listHas st.processed key = false then
              { out := st.out ++ xs.map (canonLine key),
                processed := st.processed ++ [key] }
            else st
          else
            { out := st.out ++ [canonLine key (xs.headD undefinedStr)],
              processed := st.processed ++ [key] }
        | .s v =>
          if isRep then
            { out := st.out ++ [line.content], processed := st.processed ++ [key] }
          else
            { out := st.out ++ [canonLine key v], processed := st.processed ++ [key] }
      | none =>
        { out := st.out ++ [line.content], processed := st.processed ++ [key] }
  else st

/-- `result.endsWith(nl) ? result : result + nl` — the final step of
`saveConfigFile`. -/
def ensureNl (s : Str) : Str := if endsNl s then s else s ++ ['\n']

/-- The generated marker comment placed before appended new properties. -/
def newPropsHeader : Str := lit "# Properties added by Ghostty Config Editor"

/-- The lines appended for the `newProperties` map. -/
def newPropLines (pm : Option PMap) : List (Str × ValueV) → List Str
  | [] => []
  | (key, v) :: rest =>
    (match v with
     | .arr xs =>
       if isRepeatableOf pm key then xs.map (canonLine key)
       else [canonLine key (xs.headD undefinedStr)]
     | .s s => [canonLine key s]) ++ newPropLines pm rest

/-- `saveConfigFile(parsedFile, options)` from
`src/lib/parser/propertiesSaver.ts`. -/
def saveConfigFile (parsedFile : ParsedConfigFile) (options : SaveOptions) : Str :=
  let st := parsedFile.lines.foldl (saveLine options) ⟨[], []⟩
  let outputLines :=
    if options.newProperties ≠ [] then
      let withBlank :=
        if st.out ≠ [] ∧ trimS (st.out.getLast?.getD []) ≠ [] then st.out ++ [[]]
        else st.out
      withBlank ++ [newPropsHeader] ++
        newPropLines options.propertyMap options.newProperties
    else st.out
  ensureNl (joinCh '\n' outputLines)

/-- `buildSaveOptions(originalParsedFile, currentConfig, modifiedKeys,
propertyMap)` from `src/lib/parser/propertiesSaver.ts`. -/
def buildSaveOptions (originalParsedFile : ParsedConfigFile)
    (currentConfig : List (Str × ValueV)) (modifiedKeys : List Str)
    (pm : Option PMap) : SaveOptions :=
  let originalConfig := originalParsedFile.parseResult.valid
  let modifiedProperties := modifiedKeys.foldl
    (fun acc k =>
      match mapGet currentConfig k with
      | some v => mapSet acc k v
      | none => acc) []
  let removedProperties := originalConfig.foldl
    (fun acc p => if (mapGet currentConfig p.1).isNone then acc ++ [p.1] else acc) []
  let newProperties := currentConfig.foldl
    (fun acc p => if (mapGet originalConfig p.1).isNone then mapSet acc p.1 p.2
                  else acc) []
  ⟨modifiedProperties, removedProperties, newProperties, pm⟩

/-! ## Config store

Embedding of `saveConfig` from `src/stores/configStore.ts`.  The store
issues Tauri commands (`create_backup`, `write_config_file`) at the I/O
boundary; command failures surface as a caught error and are orthogonal to
the control flow verified here, so the happy path of both commands is
modelled.  `saveConfig` receives `diskMtime`, the modification timestamp
that `get_file_metadata` would report for the file at save time: the
TypeScript function never invokes `get_file_metadata` (or reads any other
disk state) before writing, so the embedded body does not use this
argument. -/

/-- The slice of the Zustand store state that `saveConfig` reads.  `schema`
is represented by the `PropertyMap` that `createPropertyMap(schema)`
produces from it. -/
structure StoreState where
  schema : Option PMap
  config : List (Str × ValueV)
  originalConfig : List (Str × ValueV)
  parsedFile : Option ParsedConfigFile
  filePath : Option Str
  lastSavedTimestamp : Option Nat

/-- Outcome of one `saveConfig` call. -/
inductive SaveOutcome where
  | delegatedToSaveAs
  | errorNotLoaded
  | wrote (path : Str) (content : Str) (newState : StoreState)

/-- `saveConfig()` from `src/stores/configStore.ts` (happy I/O path).  The
`diskMtime` argument is the on-disk modification time at save time; `now`
is `Date.now()` at completion. -/
def saveConfig (st : StoreState) (diskMtime : Nat) (now : Nat) : SaveOutcome :=
  match st.filePath with
  | none => .delegatedToSaveAs
  | some path =>
    match st.schema, st.parsedFile with
    | some pm, some parsedFile =>
      let modifiedKeys := (st.config.filter
        (fun p =>
          match mapGet st.originalConfig p.1 with
          | none => true
          | some ov => decide (p.2 ≠ ov))).map (·.1)
      let saveOptions := buildSaveOptions parsedFile st.config modifiedKeys (some pm)
      let newContent := saveConfigFile parsedFile saveOptions
      .wrote path newContent
        { st with originalConfig := st.config, lastSavedTimestamp := some now }
    | _, _ => .errorNotLoaded

/-! ## Structural lemmas about the parser -/

theorem parseLine_content (l : Str) (n : Nat) (pm : Option PMap) :
    (parseLine l n pm).content = l := by
  simp only [parseLine]
  repeat' split
  all_goals rfl

theorem parseLine_lineNumber (l : Str) (n : Nat) (pm : Option PMap) :
    (parseLine l n pm).lineNumber = n := by
  simp only [parseLine]
  repeat' split
  all_goals rfl

theorem parseLine_num_irrelevant (l : Str) (n : Nat) (pm : Option PMap) :
    parseLine l n pm = { parseLine l 1 pm with lineNumber := n } := by
  simp only [parseLine]
  repeat' split
  all_goals rfl

/-- A `property` line always carries a truthy key when the schema map is
present and has no entry for the empty key. -/
theorem parseLine_property_keyTruthy (l : Str) (n : Nat) (m : PMap)
    (hm : (mapGet m []).isSome = false)
    (hp : (parseLine l n (some m)).type = .property) :
    keyTruthy (parseLine l n (some m)).key = true := by
  simp only [parseLine] at *
  by_cases h1 : trimS l = []
  · simp [h1] at hp
  · rw [if_neg h1] at hp ⊢
    by_cases h2 : startsHash (trimS l) = true
    · simp [h2] at hp
    · rw [if_neg (by simpa using h2)] at hp ⊢
      cases hidx : indexOfCh l '=' with
      | none =>
        rw [hidx] at hp
        simp at hp
      | some i =>
        rw [hidx] at hp
        simp only at hp ⊢
        cases hk : trimS (l.take i) with
        | nil =>
          rw [hk] at hp
          simp [hm] at hp
        | cons c t => simp [keyTruthy]

theorem parseStep_lines (pm : Option PMap) (acc : PAcc) (p : Nat × Str) :
    (parseStep pm acc p).lines = acc.lines ++ [parseLine p.2 p.1 pm] := by
  simp only [parseStep]
  repeat' split
  all_goals rfl

theorem parseFold_lines (pm : Option PMap) (ps : List (Nat × Str)) (acc : PAcc) :
    (ps.foldl (parseStep pm) acc).lines
      = acc.lines ++ ps.map (fun p => parseLine p.2 p.1 pm) := by
  induction ps generalizing acc with
  | nil => simp
  | cons p t ih =>
    rw [List.foldl_cons, ih, parseStep_lines]
    simp

theorem withIdx_map_snd {α : Type} (n : Nat) (xs : List α) :
    (withIdx n xs).map Prod.snd = xs := by
  induction xs generalizing n with
  | nil => rfl
  | cons a t ih => simp [withIdx, ih]

theorem withIdx_map_fst {α : Type} (n : Nat) (xs : List α) :
    (withIdx n xs).map Prod.fst = List.range' n xs.length := by
  induction xs generalizing n with
  | nil => rfl
  | cons a t ih => simp [withIdx, List.range'_succ, ih]

theorem parseConfigFile_lines (content : Str) (pm : Option PMap) :
    (parseConfigFile content pm).lines
      = (withIdx 1 (splitCh '\n' content)).map (fun p => parseLine p.2 p.1 pm) := by
  unfold parseConfigFile
  simp only [parseFold_lines]
  rfl

theorem map_content_withIdx (pm : Option PMap) (n : Nat) (xs : List Str) :
    ((withIdx n xs).map (fun p => parseLine p.2 p.1 pm)).map
        (fun l => l.content) = xs := by
  induction xs generalizing n with
  | nil => rfl
  | cons a t ih => simp [withIdx, parseLine_content, ih]

theorem map_lineNumber_withIdx (pm : Option PMap) (n : Nat) (xs : List Str) :
    ((withIdx n xs).map (fun p => parseLine p.2 p.1 pm)).map
        (fun l => l.lineNumber) = List.range' n xs.length := by
  induction xs generalizing n with
  | nil => rfl
  | cons a t ih => simp [withIdx, parseLine_lineNumber, List.range'_succ, ih]

/-! ## Structural lemmas about the saver -/

/-- The one saver branch whose emission consults `processedProperties`:
a truthy-key property line, not removed, whose key is modified with an
array value and is repeatable. -/
def usesProcessed (opts : SaveOptions) (line : ConfigLine) : Bool :=
  decide (line.type = .property) && keyTruthy line.key &&
  !(listHas opts.removedProperties (line.key.getD [])) &&
  (match mapGet opts.modifiedProperties (line.key.getD []) with
   | some (.arr _) => true
   | _ => false) &&
  isRepeatableOf opts.propertyMap (line.key.getD [])

/-- The lines `saveLine` emits, as a function of the line alone, on the
state-independent branches. -/
def emitPure (opts : SaveOptions) (line : ConfigLine) : List Str :=
  if line.type = .comment ∨ line.type = .blank then [line.content]
  else if line.type = .unknown then [line.content]
  else if line.type = .property ∧ keyTruthy line.key = true then
    let key := line.key.getD []
    if listHas opts.removedProperties key then []
    else
      match mapGet opts.modifiedProperties key with
      | some (.arr xs) =>
        if isRepeatableOf opts.propertyMap key then xs.map (canonLine key)
        else [canonLine key (xs.headD undefinedStr)]
      | some (.s v) =>
        if isRepeatableOf opts.propertyMap key then [line.content]
        else [canonLine key v]
      | none => [line.content]
  else []

theorem saveLine_out_of_not_uses (opts : SaveOptions) (st : SState)
    (line : ConfigLine) (h : usesProcessed opts line = false) :
    (saveLine opts st line).out = st.out ++ emitPure opts line := by
  unfold saveLine emitPure
  by_cases h1 : line.type = .comment ∨ line.type = .blank
  · simp [h1]
  · rw [if_neg h1, if_neg h1]
    by_cases h2 : line.type = .unknown
    · simp [h2]
    · rw [if_neg h2, if_neg h2]
      by_cases h3 : line.type = .property ∧ keyTruthy line.key = true
      · rw [if_pos h3, if_pos h3]
        simp only
        by_cases h4 : listHas opts.removedProperties (line.key.getD [])
        · simp [h4]
        · rw [if_neg h4, if_neg h4]
          cases hmod : mapGet opts.modifiedProperties (line.key.getD []) with
          | none => simp
          | some newValue =>
            cases newValue with
            | s v =>
              by_cases h5 : isRepeatableOf opts.propertyMap (line.key.getD [])
              · simp [h5]
              · simp [h5]
            | arr xs =>
              by_cases h5 : isRepeatableOf opts.propertyMap (line.key.getD [])
              · exfalso
                unfold usesProcessed at h
                rw [hmod] at h
                simp [h3.1, h3.2, h4, h5] at h
              · simp [h5]
      · rw [if_neg h3, if_neg h3]
        simp

theorem saveFold_out (opts : SaveOptions) (lines : List ConfigLine) (st : SState)
    (h : ∀ l ∈ lines, usesProcessed opts l = false) :
    (lines.foldl (saveLine opts) st).out
      = st.out ++ (lines.map (emitPure opts)).flatten := by
  induction lines generalizing st with
  | nil => simp
  | cons l t ih =>
    have hl := h l (by simp)
    have ht : ∀ x ∈ t, usesProcessed opts x = false :=
      fun x hx => h x (by simp [hx])
    rw [List.foldl_cons, ih _ ht, saveLine_out_of_not_uses opts st l hl]
    simp

/-! ## The canonical directive-line shape under `parseLine` -/

theorem lit_sep_eq : lit " = " = [' ', '=', ' '] := rfl

theorem trimR_single_ws : trimR [' '] = [] := rfl

theorem parseLine_canonical (k v : Str) (n : Nat) (pm : Option PMap)
    (hk0 : k ≠ []) (hkt : trimS k = k) (hkh : startsHash k = false)
    (hke : ∀ c ∈ k, c ≠ '=') :
    parseLine (k ++ lit " = " ++ v) n pm =
      ⟨if (match pm with
          | none => true
          | some m => (mapGet m k).isSome) = true then .property else .unknown,
        k ++ lit " = " ++ v, n, some k, some (trimS v), k ++ lit " = " ++ v⟩ := by
  have hline : k ++ lit " = " ++ v = k ++ (' ' :: '=' :: ' ' :: v) := by
    rw [lit_sep_eq]; simp
  have htrim : trimS (k ++ (' ' :: '=' :: ' ' :: v))
      = k ++ trimR (' ' :: '=' :: ' ' :: v) := trimS_append_left _ hkt hk0
  obtain ⟨c, t, hct⟩ : ∃ c t, k = c :: t := by
    cases k with
    | nil => exact absurd rfl hk0
    | cons c t => exact ⟨c, t, rfl⟩
  have hblank : trimS (k ++ (' ' :: '=' :: ' ' :: v)) ≠ [] := by
    rw [htrim, hct]; simp
  have hhash : startsHash (trimS (k ++ (' ' :: '=' :: ' ' :: v))) = false := by
    rw [htrim, hct]
    rw [hct] at hkh
    simpa [startsHash] using hkh
  have hidx : indexOfCh (k ++ (' ' :: '=' :: ' ' :: v)) '=' = some (k.length + 1) := by
    have h2 : k ++ (' ' :: '=' :: ' ' :: v) = (k ++ [' ']) ++ '=' :: (' ' :: v) := by
      simp
    rw [h2, indexOfCh_append_sep (k ++ [' ']) (' ' :: v) '='
      (by
        intro x hx
        rcases List.mem_append.mp hx with h | h
        · exact hke x h
        · simp at h; subst h; decide)]
    simp
  have hkey : trimS ((k ++ (' ' :: '=' :: ' ' :: v)).take (k.length + 1)) = k := by
    have h2 : k ++ (' ' :: '=' :: ' ' :: v) = (k ++ [' ']) ++ ('=' :: ' ' :: v) := by
      simp
    have h3 : (k ++ [' ']).length = k.length + 1 := by simp
    rw [h2, List.take_left' h3, trimS_append_left [' '] hkt hk0, trimR_single_ws]
    simp
  have hval : trimS ((k ++ (' ' :: '=' :: ' ' :: v)).drop (k.length + 1 + 1))
      = trimS v := by
    have h2 : k ++ (' ' :: '=' :: ' ' :: v) = (k ++ [' ', '=']) ++ (' ' :: v) := by
      simp
    have h3 : (k ++ [' ', '=']).length = k.length + 1 + 1 := by simp
    rw [h2, List.drop_left' h3, trimS_ws_cons v (by decide)]
  rw [hline]
  simp only [parseLine]
  rw [if_neg hblank, if_neg (by simpa using hhash), hidx]
  simp only [hkey, hval]

theorem flatten_singletons {α β : Type} (l : List α) (f : α → β) :
    (l.map (fun a => [f a])).flatten = l.map f := by
  induction l with
  | nil => rfl
  | cons a t ih => simp [ih]

/-- A line that the saver must reproduce verbatim: with an empty modified
set and an empty removed set, every comment, blank, unknown, or
truthy-keyed property line is emitted as its original content. -/
theorem emitPure_verbatim (opts : SaveOptions) (line : ConfigLine)
    (hmod : opts.modifiedProperties = [])
    (hrem : opts.removedProperties = [])
    (hkey : line.type = .property → keyTruthy line.key = true) :
    emitPure opts line = [line.content] := by
  unfold emitPure
  cases hty : line.type with
  | comment => simp
  | blank => simp
  | unknown => simp
  | property =>
    have hkt : keyTruthy line.key = true := hkey hty
    simp [hkt, hrem, hmod, listHas, mapGet]

/-! ## Claim theorems -/

/-- Claim C9: parsing is lossless at line granularity — `parseConfigFile`
returns exactly one `ConfigLine` per piece of the input split on the
newline character, in order, with 1-based line numbers and the raw line
text as `content`, so joining the contents with newlines reproduces the
input exactly. -/
theorem parse_lossless_line_granularity (content : Str) (pm : Option PMap) :
    (parseConfigFile content pm).lines.map (fun l => l.content)
        = splitCh '\n' content
    ∧ (parseConfigFile content pm).lines.map (fun l => l.lineNumber)
        = List.range' 1 (splitCh '\n' content).length
    ∧ joinCh '\n' ((parseConfigFile content pm).lines.map (fun l => l.content))
        = content := by
  refine ⟨?_, ?_, ?_⟩
  · rw [parseConfigFile_lines, map_content_withIdx]
  · rw [parseConfigFile_lines, map_lineNumber_withIdx]
  · rw [parseConfigFile_lines, map_content_withIdx, joinCh_splitCh]

/-- Claim C8 (amended): the text returned by `saveConfigFile` always ends
with at least one newline — one is appended exactly when the joined lines
do not already end with one; existing trailing newlines are preserved, so
the result can end with more than one. -/
theorem saveConfigFile_ends_with_newline (pf : ParsedConfigFile)
    (opts : SaveOptions) : endsNl (saveConfigFile pf opts) = true := by
  have h : ∀ s : Str, endsNl (ensureNl s) = true := by
    intro s
    unfold ensureNl
    split
    · assumption
    · exact endsNl_append_nl s
  simp only [saveConfigFile]
  exact h _

/-- The output ends with one newline not preceded by another newline. -/
def endsExactlyOneNl (s : Str) : Bool := endsNl s && !(endsNl s.dropLast)

/-- Claim C8, counterexample to the claim as stated: on the two-newline
input, save-after-parse with an empty change set returns a text ending in
two newlines, not exactly one. -/
theorem saveConfigFile_two_trailing_newlines :
    endsExactlyOneNl
      (saveConfigFile (parseConfigFile (lit "\n\n") (some []))
        ⟨[], [], [], some []⟩) = false := by decide

/-- Claim C1 (amended): parsing any text that ends with a newline using a
schema map without an empty-string key, then saving with an empty change
set (no modified, removed, or new properties), reproduces the original
text byte-for-byte — comments, blank lines, and directive lines untouched. -/
theorem save_empty_changeset_roundtrip (content : Str) (m : PMap)
    (opts : SaveOptions)
    (hm : (mapGet m []).isSome = false)
    (hmod : opts.modifiedProperties = [])
    (hrem : opts.removedProperties = [])
    (hnew : opts.newProperties = [])
    (hend : endsNl content = true) :
    saveConfigFile (parseConfigFile content (some m)) opts = content := by
  have hlines := parseConfigFile_lines content (some m)
  have hkeys : ∀ l ∈ (parseConfigFile content (some m)).lines,
      l.type = .property → keyTruthy l.key = true := by
    intro l hl hty
    rw [hlines] at hl
    obtain ⟨p, hp, rfl⟩ := List.mem_map.mp hl
    exact parseLine_property_keyTruthy p.2 p.1 m hm hty
  have hnotuses : ∀ l ∈ (parseConfigFile content (some m)).lines,
      usesProcessed opts l = false := by
    intro l hl
    unfold usesProcessed
    rw [hmod]
    simp [mapGet]
  have hemit : ∀ l ∈ (parseConfigFile content (some m)).lines,
      emitPure opts l = [l.content] :=
    fun l hl => emitPure_verbatim opts l hmod hrem (hkeys l hl)
  simp only [saveConfigFile]
  rw [saveFold_out opts _ _ hnotuses, List.map_congr_left hemit,
    flatten_singletons]
  rw [hlines, map_content_withIdx, hnew]
  simp only [ne_eq, not_true_eq_false, if_false, List.nil_append]
  rw [joinCh_splitCh]
  unfold ensureNl
  rw [if_pos hend]

/-- Claim C1, witness for the amended theorem at a concrete input. -/
theorem save_empty_changeset_roundtrip_witness :
    saveConfigFile
      (parseConfigFile (lit "# c\nfont-size = 12\n")
        (some [(lit "font-size", ⟨false, fun _ => none⟩)]))
      ⟨[], [], [], none⟩ = lit "# c\nfont-size = 12\n" :=
  save_empty_changeset_roundtrip (lit "# c\nfont-size = 12\n")
    [(lit "font-size", ⟨false, fun _ => none⟩)] ⟨[], [], [], none⟩
    (by decide) rfl rfl rfl (by decide)

/-- Claim C1, counterexample to the claim as stated: for input text with no
trailing newline the round trip appends one, so the result is not
byte-identical to the input. -/
theorem save_empty_changeset_not_identity :
    ¬ (saveConfigFile (parseConfigFile (lit "x") (some []))
        ⟨[], [], [], some []⟩ = lit "x") := by decide

/-- The modified map `[(k, .s w)]` holds no array value, so no saver branch
consults `processedProperties`. -/
theorem usesProcessed_false_of_single_s (k w : Str) (rem : List Str)
    (newP : List (Str × ValueV)) (pm : Option PMap) (line : ConfigLine) :
    usesProcessed ⟨[(k, ValueV.s w)], rem, newP, pm⟩ line = false := by
  unfold usesProcessed
  have h : (match mapGet [(k, ValueV.s w)] (line.key.getD []) with
      | some (.arr _) => true
      | _ => false) = false := by
    unfold mapGet
    by_cases hk : k = line.key.getD [] <;> simp [hk, mapGet]
  rw [h]
  simp

/-- `emitPure` ignores the line number. -/
theorem emitPure_num_irrelevant (opts : SaveOptions) (l : Str) (n : Nat)
    (pm : Option PMap) :
    emitPure opts (parseLine l n pm) = emitPure opts (parseLine l 1 pm) := by
  rw [parseLine_num_irrelevant]
  rfl

/-- Mapping the per-line emission over indexed lines forgets the indices. -/
theorem map_emitPure_withIdx (opts : SaveOptions) (pm : Option PMap)
    (n : Nat) (xs : List Str) :
    ((withIdx n xs).map (fun p => parseLine p.2 p.1 pm)).map (emitPure opts)
      = xs.map (fun l => emitPure opts (parseLine l 1 pm)) := by
  induction xs generalizing n with
  | nil => rfl
  | cons a t ih => simp [withIdx, emitPure_num_irrelevant, ih]

/-- Claim C3 (amended): with exactly one non-repeatable key `k`, present on
exactly one directive line of the input and carrying parsed value `vOld`,
in the modified set with new string value `w` (nothing removed or added),
the saved text — viewed as its list of newline-separated lines — equals
the input lines with exactly that one line replaced by the canonical
`k = w` line; every other line is byte-identical, and the replaced line
differs from the original whenever the trimmed new value differs from the
parsed old value (and the input ends with a newline). -/
theorem surgical_update (pre post : List Str) (lineK k vOld w : Str) (m : PMap)
    (hm : (mapGet m []).isSome = false)
    (hpre : ∀ l ∈ pre ++ post, ∀ c ∈ l, c ≠ '\n')
    (hlkNl : ∀ c ∈ lineK, c ≠ '\n')
    (hkNl : ∀ c ∈ k, c ≠ '\n')
    (hwNl : ∀ c ∈ w, c ≠ '\n')
    (hparse : parseLine lineK 1 (some m)
        = ⟨.property, lineK, 1, some k, some vOld, lineK⟩)
    (hk0 : k ≠ []) (hkt : trimS k = k) (hkh : startsHash k = false)
    (hke : ∀ c ∈ k, c ≠ '=')
    (hrep : isRepeatableOf (some m) k = false)
    (hwv : trimS w ≠ vOld)
    (hothers : ∀ l ∈ pre ++ post, (parseLine l 1 (some m)).type = .property →
        (parseLine l 1 (some m)).key ≠ some k)
    (hlast : post.getLast? = some []) :
    splitCh '\n' (saveConfigFile
        (parseConfigFile (joinCh '\n' (pre ++ [lineK] ++ post)) (some m))
        ⟨[(k, ValueV.s w)], [], [], some m⟩)
      = pre ++ [canonLine k w] ++ post
    ∧ canonLine k w ≠ lineK := by
  set opts : SaveOptions := ⟨[(k, ValueV.s w)], [], [], some m⟩ with hopts
  have hLne : pre ++ [lineK] ++ post ≠ [] := by simp
  have hLfree : ∀ l ∈ pre ++ [lineK] ++ post, ∀ c ∈ l, c ≠ '\n' := by
    intro l hl
    rcases List.mem_append.mp hl with hl1 | hl2
    · rcases List.mem_append.mp hl1 with hp | hs
      · exact hpre l (List.mem_append.mpr (Or.inl hp))
      · simp at hs
        subst hs
        exact hlkNl
    · exact hpre l (List.mem_append.mpr (Or.inr hl2))
  have hsplit : splitCh '\n' (joinCh '\n' (pre ++ [lineK] ++ post))
      = pre ++ [lineK] ++ post := splitCh_joinCh '\n' _ hLne hLfree
  have hdiff : canonLine k w ≠ lineK := by
    intro heq
    have hcanon := parseLine_canonical k w 1 (some m) hk0 hkt hkh hke
    have h5 : parseLine (canonLine k w) 1 (some m)
        = ⟨.property, lineK, 1, some k, some vOld, lineK⟩ := by
      rw [heq, hparse]
    unfold canonLine at h5
    rw [hcanon] at h5
    have hv := congrArg ConfigLine.value h5
    simp at hv
    exact hwv hv
  refine ⟨?_, hdiff⟩
  -- evaluate the saver line by line
  have hg : ∀ l ∈ pre ++ post,
      emitPure opts (parseLine l 1 (some m)) = [l] := by
    intro l hl
    have hcontent := parseLine_content l 1 (some m)
    cases hty : (parseLine l 1 (some m)).type with
    | comment =>
      unfold emitPure
      rw [hty, hcontent]
      simp
    | blank =>
      unfold emitPure
      rw [hty, hcontent]
      simp
    | unknown =>
      unfold emitPure
      rw [hty, hcontent]
      simp
    | property =>
      have hkt2 : keyTruthy (parseLine l 1 (some m)).key = true :=
        parseLine_property_keyTruthy l 1 m hm hty
      have hne : (parseLine l 1 (some m)).key ≠ some k := hothers l hl hty
      obtain ⟨c, t, hk2⟩ : ∃ c t, (parseLine l 1 (some m)).key = some (c :: t) := by
        cases hk3 : (parseLine l 1 (some m)).key with
        | none => rw [hk3] at hkt2; simp [keyTruthy] at hkt2
        | some s =>
          cases s with
          | nil => rw [hk3] at hkt2; simp [keyTruthy] at hkt2
          | cons c t => exact ⟨c, t, rfl⟩
      have hget : mapGet opts.modifiedProperties
          ((parseLine l 1 (some m)).key.getD []) = none := by
        rw [hk2]
        simp only [Option.getD_some]
        unfold mapGet
        rw [if_neg]
        · rfl
        · intro hkk
          apply hne
          rw [hk2, hkk]
      unfold emitPure
      rw [hty, hcontent]
      simp only [hkt2]
      rw [hget]
      simp [listHas]
  have hgK : emitPure opts (parseLine lineK 1 (some m)) = [canonLine k w] := by
    unfold emitPure
    rw [hparse]
    have hktr : keyTruthy (some k) = true := by
      cases k with
      | nil => exact absurd rfl hk0
      | cons c t => simp [keyTruthy]
    simp only [hktr]
    have hget : mapGet opts.modifiedProperties k = some (ValueV.s w) := by
      unfold mapGet
      simp
    simp only [Option.getD_some]
    rw [hget]
    simp [listHas, hrep]
  have hnotuses : ∀ l ∈ (parseConfigFile (joinCh '\n' (pre ++ [lineK] ++ post))
      (some m)).lines, usesProcessed opts l = false :=
    fun l _ => usesProcessed_false_of_single_s k w [] [] (some m) l
  simp only [saveConfigFile]
  rw [saveFold_out opts _ _ hnotuses]
  rw [parseConfigFile_lines, hsplit, map_emitPure_withIdx]
  have hmap : (pre ++ [lineK] ++ post).map
        (fun l => emitPure opts (parseLine l 1 (some m)))
      = pre.map (fun l => [l]) ++ [[canonLine k w]] ++ post.map (fun l => [l]) := by
    rw [List.map_append, List.map_append]
    congr 1
    · congr 1
      · exact List.map_congr_left
          (fun l hl => hg l (List.mem_append.mpr (Or.inl hl)))
      · simp [hgK]
    · exact List.map_congr_left
        (fun l hl => hg l (List.mem_append.mpr (Or.inr hl)))
  rw [hmap]
  have hflat : (pre.map (fun l => [l]) ++ [[canonLine k w]]
        ++ post.map (fun l => [l])).flatten
      = pre ++ [canonLine k w] ++ post := by
    rw [List.flatten_append, List.flatten_append, flatten_singletons,
      flatten_singletons]
    simp
  rw [hflat]
  have hpostne : post ≠ [] := by
    intro h
    rw [h] at hlast
    simp at hlast
  have hlast2 : (pre ++ [canonLine k w] ++ post).getLast? = some [] := by
    rw [List.getLast?_append_of_ne_nil _ hpostne]
    exact hlast
  have hlen2 : 2 ≤ (pre ++ [canonLine k w] ++ post).length := by
    have : 1 ≤ post.length := by
      cases post with
      | nil => exact absurd rfl hpostne
      | cons a t => simp
    simp
    omega
  have hends : endsNl (joinCh '\n' ([] ++ (pre ++ [canonLine k w] ++ post)))
      = true := by
    rw [List.nil_append]
    exact endsNl_joinCh_of_last_nil _ hlen2 hlast2
  simp only [List.nil_append] at hends ⊢
  rw [if_neg (by simp)]
  unfold ensureNl
  rw [if_pos hends]
  refine splitCh_joinCh '\n' _ (by simp) ?_
  intro l hl
  rcases List.mem_append.mp hl with hl1 | hl2
  · rcases List.mem_append.mp hl1 with hp | hs
    · exact hpre l (List.mem_append.mpr (Or.inl hp))
    · simp at hs
      subst hs
      intro c hc
      unfold canonLine at hc
      rcases List.mem_append.mp hc with hc1 | hcw
      · rcases List.mem_append.mp hc1 with hck | hcs
        · exact hkNl c hck
        · rw [lit_sep_eq] at hcs
          intro hceq
          subst hceq
          simp at hcs
      · exact hwNl c hcw
  · exact hpre l (List.mem_append.mpr (Or.inr hl2))

/-- Claim C3, witness for the amended theorem at a concrete input: changing
`font-size` from `12` to `16` rewrites exactly the directive line (whose
original non-canonical spacing is replaced by canonical spacing) and leaves
the comment line and trailing blank line byte-identical. -/
theorem surgical_update_witness :
    splitCh '\n' (saveConfigFile
        (parseConfigFile
          (joinCh '\n' ([lit "# c"] ++ [lit "font-size =  12"] ++ [[]]))
          (some [(lit "font-size", ⟨false, fun _ => none⟩)]))
        ⟨[(lit "font-size", ValueV.s (lit "16"))], [], [],
          some [(lit "font-size", ⟨false, fun _ => none⟩)]⟩)
      = [lit "# c"] ++ [canonLine (lit "font-size") (lit "16")] ++ [[]]
    ∧ canonLine (lit "font-size") (lit "16") ≠ lit "font-size =  12" :=
  surgical_update [lit "# c"] [[]] (lit "font-size =  12") (lit "font-size")
    (lit "12") (lit "16") [(lit "font-size", ⟨false, fun _ => none⟩)]
    (by decide) (by decide) (by decide) (by decide) (by decide) (by decide)
    (by decide) (by decide) (by decide) (by decide) (by decide) (by decide)
    (by decide) (by decide)

/-- Claim C3, counterexample to the claim as stated: `font-size` is in the
modified set (with its unchanged value), yet the output is byte-identical
to the input, so zero lines differ rather than exactly one. -/
theorem surgical_update_no_line_differs :
    saveConfigFile
        (parseConfigFile (lit "font-size = 12\n")
          (some [(lit "font-size", ⟨false, fun _ => none⟩)]))
        ⟨[(lit "font-size", ValueV.s (lit "12"))], [], [],
          some [(lit "font-size", ⟨false, fun _ => none⟩)]⟩
      = lit "font-size = 12\n"
    ∧ (mapGet [(lit "font-size", ValueV.s (lit "12"))]
        (lit "font-size")).isSome = true :=
  ⟨by decide, by decide⟩

/-- No saver branch consults `processedProperties` for a line whose key is
not repeatable. -/
theorem usesProcessed_false_of_not_rep (opts : SaveOptions) (line : ConfigLine)
    (h : isRepeatableOf opts.propertyMap (line.key.getD []) = false) :
    usesProcessed opts line = false := by
  unfold usesProcessed
  rw [h]
  simp

/-- Claim C10: in `saveConfigFile`, a modified repeatable key whose supplied
new value is a plain string (not an array) has its original line emitted
verbatim — the modification is silently ignored; and a modified
non-repeatable key whose new value is an array gets only the first array
element written as the line value. -/
theorem modified_value_shape_mismatch :
    (∀ (l k v w : Str) (m : PMap),
      (∀ c ∈ l, c ≠ '\n') →
      parseLine l 1 (some m) = ⟨.property, l, 1, some k, some v, l⟩ →
      k ≠ [] →
      isRepeatableOf (some m) k = true →
      saveConfigFile (parseConfigFile l (some m))
          ⟨[(k, ValueV.s w)], [], [], some m⟩
        = l ++ ['\n'])
    ∧ (∀ (l k v x : Str) (xs : List Str) (m : PMap),
      (∀ c ∈ l, c ≠ '\n') →
      (∀ c ∈ k, c ≠ '\n') →
      (∀ c ∈ x, c ≠ '\n') →
      parseLine l 1 (some m) = ⟨.property, l, 1, some k, some v, l⟩ →
      k ≠ [] →
      isRepeatableOf (some m) k = false →
      saveConfigFile (parseConfigFile l (some m))
          ⟨[(k, ValueV.arr (x :: xs))], [], [], some m⟩
        = canonLine k x ++ ['\n']) := by
  constructor
  · intro l k v w m hlNl hparse hk0 hrep
    have hktr : keyTruthy (some k) = true := by
      cases k with
      | nil => exact absurd rfl hk0
      | cons c t => simp [keyTruthy]
    have hlines : (parseConfigFile l (some m)).lines = [parseLine l 1 (some m)] := by
      rw [parseConfigFile_lines, splitCh_of_no_sep '\n' l hlNl]
      rfl
    have hnotuses : ∀ x ∈ (parseConfigFile l (some m)).lines,
        usesProcessed ⟨[(k, ValueV.s w)], [], [], some m⟩ x = false :=
      fun x _ => usesProcessed_false_of_single_s k w [] [] (some m) x
    have hemit : emitPure ⟨[(k, ValueV.s w)], [], [], some m⟩
        (parseLine l 1 (some m)) = [l] := by
      unfold emitPure
      rw [hparse]
      simp only [hktr]
      have hget : mapGet [(k, ValueV.s w)] k = some (ValueV.s w) := by
        unfold mapGet
        simp
      simp only [Option.getD_some]
      rw [hget]
      simp [listHas, hrep]
    simp only [saveConfigFile]
    rw [saveFold_out _ _ _ hnotuses, hlines]
    simp only [List.map_cons, List.map_nil, List.flatten, List.append_nil,
      List.nil_append]
    rw [hemit]
    rw [if_neg (by simp)]
    simp only [joinCh]
    unfold ensureNl
    rw [if_neg (by rw [endsNl_false_of_no_nl l hlNl]; simp)]
  · intro l k v x xs m hlNl hkNl hxNl hparse hk0 hrep
    have hktr : keyTruthy (some k) = true := by
      cases k with
      | nil => exact absurd rfl hk0
      | cons c t => simp [keyTruthy]
    have hlines : (parseConfigFile l (some m)).lines = [parseLine l 1 (some m)] := by
      rw [parseConfigFile_lines, splitCh_of_no_sep '\n' l hlNl]
      rfl
    have hnotuses : ∀ y ∈ (parseConfigFile l (some m)).lines,
        usesProcessed ⟨[(k, ValueV.arr (x :: xs))], [], [], some m⟩ y = false := by
      intro y hy
      rw [hlines] at hy
      simp at hy
      subst hy
      apply usesProcessed_false_of_not_rep
      rw [hparse]
      simpa using hrep
    have hemit : emitPure ⟨[(k, ValueV.arr (x :: xs))], [], [], some m⟩
        (parseLine l 1 (some m)) = [canonLine k x] := by
      unfold emitPure
      rw [hparse]
      simp only [hktr]
      have hget : mapGet [(k, ValueV.arr (x :: xs))] k
          = some (ValueV.arr (x :: xs)) := by
        unfold mapGet
        simp
      simp only [Option.getD_some]
      rw [hget]
      simp [listHas, hrep]
    have hcanNl : ∀ c ∈ canonLine k x, c ≠ '\n' := by
      intro c hc
      unfold canonLine at hc
      rcases List.mem_append.mp hc with hc1 | hcx
      · rcases List.mem_append.mp hc1 with hck | hcs
        · exact hkNl c hck
        · rw [lit_sep_eq] at hcs
          intro hceq
          subst hceq
          simp at hcs
      · exact hxNl c hcx
    simp only [saveConfigFile]
    rw [saveFold_out _ _ _ hnotuses, hlines]
    simp only [List.map_cons, List.map_nil, List.flatten, List.append_nil,
      List.nil_append]
    rw [hemit]
    rw [if_neg (by simp)]
    simp only [joinCh]
    unfold ensureNl
    rw [if_neg (by rw [endsNl_false_of_no_nl _ hcanNl]; simp)]

/-- Claim C10, witness instantiating both parts at concrete inputs. -/
theorem modified_value_shape_mismatch_witness :
    saveConfigFile
        (parseConfigFile (lit "palette = 0")
          (some [(lit "palette", ⟨true, fun _ => none⟩)]))
        ⟨[(lit "palette", ValueV.s (lit "z"))], [], [],
          some [(lit "palette", ⟨true, fun _ => none⟩)]⟩
      = lit "palette = 0" ++ ['\n']
    ∧ saveConfigFile
        (parseConfigFile (lit "font-size = 12")
          (some [(lit "font-size", ⟨false, fun _ => none⟩)]))
        ⟨[(lit "font-size", ValueV.arr [lit "9", lit "8"])], [], [],
          some [(lit "font-size", ⟨false, fun _ => none⟩)]⟩
      = canonLine (lit "font-size") (lit "9") ++ ['\n'] :=
  ⟨modified_value_shape_mismatch.1 (lit "palette = 0") (lit "palette")
    (lit "0") (lit "z") [(lit "palette", ⟨true, fun _ => none⟩)]
    (by decide) (by decide) (by decide) (by decide),
   modified_value_shape_mismatch.2 (lit "font-size = 12") (lit "font-size")
    (lit "12") (lit "9") [lit "8"] [(lit "font-size", ⟨false, fun _ => none⟩)]
    (by decide) (by decide) (by decide) (by decide) (by decide) (by decide)⟩

/-! ## Per-branch evaluation lemmas for `parseStep` -/

theorem parseStep_unknownKey (pm : Option PMap) (acc : PAcc) (p : Nat × Str)
    (k v : Str) (hk0 : k ≠ [])
    (hpl : parseLine p.2 p.1 pm = ⟨.unknown, p.2, p.1, some k, some v, p.2⟩) :
    parseStep pm acc p = { acc with
      lines := acc.lines ++ [⟨.unknown, p.2, p.1, some k, some v, p.2⟩],
      unknownProperties := mapSet acc.unknownProperties k v,
      warnings := acc.warnings
        ++ [⟨.unknownProperty, p.1, some k, unknownMessage k⟩] } := by
  have hktr : keyTruthy (some k) = true := by
    cases k with
    | nil => exact absurd rfl hk0
    | cons c t => simp [keyTruthy]
  simp only [parseStep, hpl, hktr]
  simp

theorem parseStep_invalidLine (pm : Option PMap) (acc : PAcc) (p : Nat × Str)
    (hpl : parseLine p.2 p.1 pm = ⟨.unknown, p.2, p.1, none, none, p.2⟩)
    (htr : trimS p.2 ≠ []) :
    parseStep pm acc p = { acc with
      lines := acc.lines ++ [⟨.unknown, p.2, p.1, none, none, p.2⟩],
      invalid := acc.invalid ++ [⟨p.1, p.2, invalidFormatMessage⟩] } := by
  simp only [parseStep, hpl]
  simp [keyTruthy, htr]

theorem parseStep_blank (pm : Option PMap) (acc : PAcc) (p : Nat × Str)
    (hpl : parseLine p.2 p.1 pm = ⟨.blank, p.2, p.1, none, none, p.2⟩) :
    parseStep pm acc p = { acc with
      lines := acc.lines ++ [⟨.blank, p.2, p.1, none, none, p.2⟩] } := by
  simp only [parseStep, hpl]
  simp [keyTruthy]

theorem parseStep_property (pm : Option PMap) (acc : PAcc) (p : Nat × Str)
    (k v : Str) (hk0 : k ≠ [])
    (hpl : parseLine p.2 p.1 pm = ⟨.property, p.2, p.1, some k, some v, p.2⟩) :
    parseStep pm acc p = { acc with
      lines := acc.lines ++ [⟨.property, p.2, p.1, some k, some v, p.2⟩],
      propMap := propMapPush acc.propMap k p.1,
      valid :=
        if isRepeatableOf pm k then
          mapSet acc.valid k (.arr (prevArr acc.valid k ++ [v]))
        else mapSet acc.valid k (.s v),
      warnings := acc.warnings
        ++ (if isRepeatableOf pm k = false ∧ (mapGet acc.valid k).isSome = true
            then [⟨.parseError, p.1, some k,
              dupMessage k (firstLineNum (propMapPush acc.propMap k p.1) k)⟩]
            else [])
        ++ valWarnsOf (pm.bind (fun mm => mapGet mm k)) v p.1 k } := by
  have hktr : keyTruthy (some k) = true := by
    cases k with
    | nil => exact absurd rfl hk0
    | cons c t => simp [keyTruthy]
  simp only [parseStep, hpl, hktr]
  simp

/-- Validation warnings never carry the duplicate-key (`parseError`) tag. -/
theorem valWarnsOf_filter_parseError (pd : Option PropertyDef) (v : Str)
    (n : Nat) (k : Str) :
    (valWarnsOf pd v n k).filter
      (fun w => decide (w.type = ConfigWarnKind.parseError)) = [] := by
  unfold valWarnsOf
  cases pd with
  | none => rfl
  | some d =>
    simp only
    by_cases hv : v ≠ []
    · rw [if_pos hv]
      cases d.validate v <;> simp
    · rw [if_neg hv]
      rfl

/-- All characters of a canonical `key = value` line come from the key, the
value, or the separator. -/
theorem canonLine_no_nl (k x : Str) (hkNl : ∀ c ∈ k, c ≠ '\n')
    (hxNl : ∀ c ∈ x, c ≠ '\n') : ∀ c ∈ canonLine k x, c ≠ '\n' := by
  intro c hc
  unfold canonLine at hc
  rcases List.mem_append.mp hc with hc1 | hcx
  · rcases List.mem_append.mp hc1 with hck | hcs
    · exact hkNl c hck
    · rw [lit_sep_eq] at hcs
      intro hceq
      subst hceq
      simp at hcs
  · exact hxNl c hcx

/-- An unknown line is always emitted verbatim by the saver. -/
theorem saveLine_unknown (opts : SaveOptions) (st : SState) (line : ConfigLine)
    (h : line.type = .unknown) :
    saveLine opts st line = { st with out := st.out ++ [line.content] } := by
  simp [saveLine, h]

/-- Claim C5: a directive-shaped line whose key is absent from the schema is
classified unrecognized, contributes nothing to the valid value map, emits
exactly one unknown-key warning (and no other warning), and survives
parse-then-save byte-for-byte as a line (the save output is exactly the
line plus the mandatory trailing newline). -/
theorem unknown_key_preserved (l k v : Str) (m : PMap)
    (hlNl : ∀ c ∈ l, c ≠ '\n')
    (hparse : parseLine l 1 (some m) = ⟨.unknown, l, 1, some k, some v, l⟩)
    (hk0 : k ≠ []) :
    (parseConfigFile l (some m)).lines = [⟨.unknown, l, 1, some k, some v, l⟩]
    ∧ (parseConfigFile l (some m)).parseResult.valid = []
    ∧ (parseConfigFile l (some m)).parseResult.warnings
        = [⟨.unknownProperty, 1, some k, unknownMessage k⟩]
    ∧ saveConfigFile (parseConfigFile l (some m)) ⟨[], [], [], some m⟩
        = l ++ ['\n'] := by
  have hsplit : splitCh '\n' l = [l] := splitCh_of_no_sep _ _ hlNl
  have hstep := parseStep_unknownKey (some m) ⟨[], [], [], [], [], []⟩ (1, l)
    k v hk0 hparse
  have hpcf : parseConfigFile l (some m) =
      { lines := [⟨.unknown, l, 1, some k, some v, l⟩],
        propertyMap := [],
        parseResult :=
          { lines := [⟨.unknown, l, 1, some k, some v, l⟩],
            valid := [],
            invalid := [],
            warnings := [⟨.unknownProperty, 1, some k, unknownMessage k⟩],
            unknownProperties := [(k, v)] } } := by
    unfold parseConfigFile
    rw [hsplit]
    simp only [withIdx, List.foldl_cons, List.foldl_nil]
    rw [hstep]
    rfl
  refine ⟨by rw [hpcf], by rw [hpcf], by rw [hpcf], ?_⟩
  rw [hpcf]
  simp only [saveConfigFile, List.foldl_cons, List.foldl_nil]
  rw [saveLine_unknown _ _ _ rfl]
  rw [if_neg (by simp)]
  simp only [List.nil_append, joinCh]
  unfold ensureNl
  rw [if_neg (by rw [endsNl_false_of_no_nl l hlNl]; simp)]

/-- Claim C5, witness at a concrete input. -/
theorem unknown_key_preserved_witness :
    (parseConfigFile (lit "foo = bar") (some [])).lines
        = [⟨.unknown, lit "foo = bar", 1, some (lit "foo"), some (lit "bar"),
            lit "foo = bar"⟩]
    ∧ (parseConfigFile (lit "foo = bar") (some [])).parseResult.valid = []
    ∧ (parseConfigFile (lit "foo = bar") (some [])).parseResult.warnings
        = [⟨.unknownProperty, 1, some (lit "foo"), unknownMessage (lit "foo")⟩]
    ∧ saveConfigFile (parseConfigFile (lit "foo = bar") (some []))
        ⟨[], [], [], some []⟩ = lit "foo = bar" ++ ['\n'] :=
  unknown_key_preserved (lit "foo = bar") (lit "foo") (lit "bar") []
    (by decide) (by decide) (by decide)

/-- Claim C7 (amended): a non-blank, non-comment line with no separator is
classified unrecognized, recorded as exactly one entry of the invalid-lines
list of the parse result — the warnings list receives nothing for it — and
is preserved verbatim by the saver. -/
theorem malformed_line_invalid_entry (l : Str) (m : PMap)
    (hlNl : ∀ c ∈ l, c ≠ '\n')
    (hparse : parseLine l 1 (some m) = ⟨.unknown, l, 1, none, none, l⟩)
    (htr : trimS l ≠ []) :
    (parseConfigFile l (some m)).lines = [⟨.unknown, l, 1, none, none, l⟩]
    ∧ (parseConfigFile l (some m)).parseResult.invalid
        = [⟨1, l, invalidFormatMessage⟩]
    ∧ (parseConfigFile l (some m)).parseResult.warnings = []
    ∧ saveConfigFile (parseConfigFile l (some m)) ⟨[], [], [], some m⟩
        = l ++ ['\n'] := by
  have hsplit : splitCh '\n' l = [l] := splitCh_of_no_sep _ _ hlNl
  have hstep := parseStep_invalidLine (some m) ⟨[], [], [], [], [], []⟩ (1, l)
    hparse htr
  have hpcf : parseConfigFile l (some m) =
      { lines := [⟨.unknown, l, 1, none, none, l⟩],
        propertyMap := [],
        parseResult :=
          { lines := [⟨.unknown, l, 1, none, none, l⟩],
            valid := [],
            invalid := [⟨1, l, invalidFormatMessage⟩],
            warnings := [],
            unknownProperties := [] } } := by
    unfold parseConfigFile
    rw [hsplit]
    simp only [withIdx, List.foldl_cons, List.foldl_nil]
    rw [hstep]
    rfl
  refine ⟨by rw [hpcf], by rw [hpcf], by rw [hpcf], ?_⟩
  rw [hpcf]
  simp only [saveConfigFile, List.foldl_cons, List.foldl_nil]
  rw [saveLine_unknown _ _ _ rfl]
  rw [if_neg (by simp)]
  simp only [List.nil_append, joinCh]
  unfold ensureNl
  rw [if_neg (by rw [endsNl_false_of_no_nl l hlNl]; simp)]

/-- Claim C7, witness for the amended theorem at the concrete input from the
specification. -/
theorem malformed_line_invalid_entry_witness :
    (parseConfigFile (lit "not-a-directive-line") (some [])).lines
        = [⟨.unknown, lit "not-a-directive-line", 1, none, none,
            lit "not-a-directive-line"⟩]
    ∧ (parseConfigFile (lit "not-a-directive-line") (some [])).parseResult.invalid
        = [⟨1, lit "not-a-directive-line", invalidFormatMessage⟩]
    ∧ (parseConfigFile (lit "not-a-directive-line") (some [])).parseResult.warnings
        = []
    ∧ saveConfigFile (parseConfigFile (lit "not-a-directive-line") (some []))
        ⟨[], [], [], some []⟩ = lit "not-a-directive-line" ++ ['\n'] :=
  malformed_line_invalid_entry (lit "not-a-directive-line") []
    (by decide) (by decide) (by decide)

/-- Claim C7, counterexample to the claim as stated: the malformed line adds
no entry at all to the returned warnings list (the anomaly is recorded in
the separate invalid-lines list instead). -/
theorem malformed_line_emits_no_warning :
    ((parseConfigFile (lit "not-a-directive-line") (some [])).parseResult).warnings
        = []
    ∧ (((parseConfigFile (lit "not-a-directive-line")
        (some [])).parseResult).invalid).length = 1 :=
  ⟨by decide, by decide⟩

/-- Claim C6: a non-repeatable key on two directive lines with values `v1`
then `v2` ends with `v2` in the value map (last occurrence wins), exactly
one duplicate-key warning is emitted, and both source lines are retained in
the returned line sequence. -/
theorem duplicate_key_last_wins (l1 l2 k v1 v2 : Str) (pm : Option PMap)
    (h1Nl : ∀ c ∈ l1, c ≠ '\n') (h2Nl : ∀ c ∈ l2, c ≠ '\n')
    (hp1 : parseLine l1 1 pm = ⟨.property, l1, 1, some k, some v1, l1⟩)
    (hp2 : parseLine l2 2 pm = ⟨.property, l2, 2, some k, some v2, l2⟩)
    (hk0 : k ≠ [])
    (hrep : isRepeatableOf pm k = false) :
    (parseConfigFile (l1 ++ '\n' :: l2) pm).parseResult.valid
        = [(k, ValueV.s v2)]
    ∧ ((parseConfigFile (l1 ++ '\n' :: l2) pm).parseResult.warnings.filter
        (fun w => decide (w.type = ConfigWarnKind.parseError))).length = 1
    ∧ (parseConfigFile (l1 ++ '\n' :: l2) pm).lines.map (fun x => x.content)
        = [l1, l2] := by
  have hsplit : splitCh '\n' (l1 ++ '\n' :: l2) = [l1, l2] := by
    rw [splitCh_append_sep '\n' l1 l2 h1Nl, splitCh_of_no_sep '\n' l2 h2Nl]
  have hacc1 : parseStep pm ⟨[], [], [], [], [], []⟩ (1, l1) =
      { lines := [⟨.property, l1, 1, some k, some v1, l1⟩],
        valid := [(k, ValueV.s v1)],
        invalid := [],
        warnings := valWarnsOf (pm.bind (fun mm => mapGet mm k)) v1 1 k,
        unknownProperties := [],
        propMap := [(k, [1])] } := by
    rw [parseStep_property pm _ (1, l1) k v1 hk0 hp1, hrep]
    simp [mapGet, mapSet, propMapPush]
  have hacc2 : parseStep pm
      { lines := [⟨.property, l1, 1, some k, some v1, l1⟩],
        valid := [(k, ValueV.s v1)],
        invalid := [],
        warnings := valWarnsOf (pm.bind (fun mm => mapGet mm k)) v1 1 k,
        unknownProperties := [],
        propMap := [(k, [1])] } (2, l2) =
      { lines := [⟨.property, l1, 1, some k, some v1, l1⟩,
          ⟨.property, l2, 2, some k, some v2, l2⟩],
        valid := [(k, ValueV.s v2)],
        invalid := [],
        warnings := valWarnsOf (pm.bind (fun mm => mapGet mm k)) v1 1 k
          ++ [⟨.parseError, 2, some k, dupMessage k 1⟩]
          ++ valWarnsOf (pm.bind (fun mm => mapGet mm k)) v2 2 k,
        unknownProperties := [],
        propMap := [(k, [1, 2])] } := by
    rw [parseStep_property pm _ (2, l2) k v2 hk0 hp2, hrep]
    simp [mapGet, mapSet, propMapPush, firstLineNum]
  have hfold : parseConfigFile (l1 ++ '\n' :: l2) pm =
      { lines := [⟨.property, l1, 1, some k, some v1, l1⟩,
          ⟨.property, l2, 2, some k, some v2, l2⟩],
        propertyMap := [(k, [1, 2])],
        parseResult :=
          { lines := [⟨.property, l1, 1, some k, some v1, l1⟩,
              ⟨.property, l2, 2, some k, some v2, l2⟩],
            valid := [(k, ValueV.s v2)],
            invalid := [],
            warnings := valWarnsOf (pm.bind (fun mm => mapGet mm k)) v1 1 k
              ++ [⟨.parseError, 2, some k, dupMessage k 1⟩]
              ++ valWarnsOf (pm.bind (fun mm => mapGet mm k)) v2 2 k,
            unknownProperties := [] } } := by
    unfold parseConfigFile
    rw [hsplit]
    simp only [withIdx, List.foldl_cons, List.foldl_nil]
    rw [hacc1, hacc2]
  refine ⟨by rw [hfold], ?_, by rw [hfold]; rfl⟩
  rw [hfold]
  simp only [List.filter_append, valWarnsOf_filter_parseError,
    List.nil_append, List.append_nil]
  simp [List.filter]

/-- Claim C6, witness at the concrete input from the specification (no
schema map passed, so `font-size` is treated as a known, non-repeatable
key, exactly as `parseConfigFile` does without a property map). -/
theorem duplicate_key_last_wins_witness :
    (parseConfigFile (lit "font-size = 12" ++ '\n' :: lit "font-size = 14")
        none).parseResult.valid = [(lit "font-size", ValueV.s (lit "14"))]
    ∧ (((parseConfigFile (lit "font-size = 12" ++ '\n' :: lit "font-size = 14")
        none).parseResult.warnings).filter
        (fun w => decide (w.type = ConfigWarnKind.parseError))).length = 1
    ∧ (parseConfigFile (lit "font-size = 12" ++ '\n' :: lit "font-size = 14")
        none).lines.map (fun x => x.content)
        = [lit "font-size = 12", lit "font-size = 14"] :=
  duplicate_key_last_wins (lit "font-size = 12") (lit "font-size = 14")
    (lit "font-size") (lit "12") (lit "14") none
    (by decide) (by decide) (by decide) (by decide) (by decide) (by decide)

/-- Claim C4: three occurrences of the repeatable key `palette` parse to an
array of length three in insertion order; with the key modified to the
two-element array dropping the middle value, the saver emits the full
current array at the position of the first original occurrence and nothing
at the two later occurrences, yielding exactly two `palette = ...` lines. -/
theorem repeatable_aggregation_and_block_rewrite
    (v1 v2 v3 : Str) (val : Str → Option Str)
    (h1Nl : ∀ c ∈ v1, c ≠ '\n') (h1t : trimS v1 = v1)
    (h2Nl : ∀ c ∈ v2, c ≠ '\n') (h2t : trimS v2 = v2)
    (h3Nl : ∀ c ∈ v3, c ≠ '\n') (h3t : trimS v3 = v3) :
    (parseConfigFile
        (canonLine (lit "palette") v1 ++ '\n' ::
          (canonLine (lit "palette") v2 ++ '\n' ::
            (canonLine (lit "palette") v3 ++ ['\n'])))
        (some [(lit "palette", ⟨true, val⟩)])).parseResult.valid
      = [(lit "palette", ValueV.arr [v1, v2, v3])]
    ∧ saveConfigFile
        (parseConfigFile
          (canonLine (lit "palette") v1 ++ '\n' ::
            (canonLine (lit "palette") v2 ++ '\n' ::
              (canonLine (lit "palette") v3 ++ ['\n'])))
          (some [(lit "palette", ⟨true, val⟩)]))
        ⟨[(lit "palette", ValueV.arr [v1, v3])], [], [],
          some [(lit "palette", ⟨true, val⟩)]⟩
      = canonLine (lit "palette") v1 ++ '\n' ::
          (canonLine (lit "palette") v3 ++ ['\n']) := by
  have hpl : ∀ (vv : Str) (n : Nat), trimS vv = vv →
      parseLine (canonLine (lit "palette") vv) n
          (some [(lit "palette", ⟨true, val⟩)])
        = ⟨.property, canonLine (lit "palette") vv, n, some (lit "palette"),
            some vv, canonLine (lit "palette") vv⟩ := by
    intro vv n hvt
    have h := parseLine_canonical (lit "palette") vv n
      (some [(lit "palette", ⟨true, val⟩)])
      (by decide) (by decide) (by decide) (by decide)
    unfold canonLine
    rw [h, hvt]
    simp [mapGet]
  have hc1Nl := canonLine_no_nl (lit "palette") v1 (by decide) h1Nl
  have hc2Nl := canonLine_no_nl (lit "palette") v2 (by decide) h2Nl
  have hc3Nl := canonLine_no_nl (lit "palette") v3 (by decide) h3Nl
  have hsplit : splitCh '\n'
      (canonLine (lit "palette") v1 ++ '\n' ::
        (canonLine (lit "palette") v2 ++ '\n' ::
          (canonLine (lit "palette") v3 ++ ['\n'])))
      = [canonLine (lit "palette") v1, canonLine (lit "palette") v2,
          canonLine (lit "palette") v3, []] := by
    rw [splitCh_append_sep '\n' _ _ hc1Nl, splitCh_append_sep '\n' _ _ hc2Nl]
    have h3 : canonLine (lit "palette") v3 ++ ['\n']
        = canonLine (lit "palette") v3 ++ '\n' :: [] := rfl
    rw [h3, splitCh_append_sep '\n' _ _ hc3Nl]
    rfl
  have hplb : parseLine ([] : Str) 4 (some [(lit "palette", ⟨true, val⟩)])
      = ⟨.blank, [], 4, none, none, []⟩ := rfl
  -- the four accumulated parse steps
  have hlines : (parseConfigFile
      (canonLine (lit "palette") v1 ++ '\n' ::
        (canonLine (lit "palette") v2 ++ '\n' ::
          (canonLine (lit "palette") v3 ++ ['\n'])))
      (some [(lit "palette", ⟨true, val⟩)])).lines
      = [⟨.property, canonLine (lit "palette") v1, 1, some (lit "palette"),
            some v1, canonLine (lit "palette") v1⟩,
          ⟨.property, canonLine (lit "palette") v2, 2, some (lit "palette"),
            some v2, canonLine (lit "palette") v2⟩,
          ⟨.property, canonLine (lit "palette") v3, 3, some (lit "palette"),
            some v3, canonLine (lit "palette") v3⟩,
          ⟨.blank, [], 4, none, none, []⟩] := by
    rw [parseConfigFile_lines, hsplit]
    simp only [withIdx, List.map_cons, List.map_nil]
    rw [hpl v1 1 h1t, hpl v2 2 h2t, hpl v3 3 h3t, hplb]
  have hvalid : (parseConfigFile
      (canonLine (lit "palette") v1 ++ '\n' ::
        (canonLine (lit "palette") v2 ++ '\n' ::
          (canonLine (lit "palette") v3 ++ ['\n'])))
      (some [(lit "palette", ⟨true, val⟩)])).parseResult.valid
      = [(lit "palette", ValueV.arr [v1, v2, v3])] := by
    unfold parseConfigFile
    rw [hsplit]
    simp only [withIdx, List.foldl_cons, List.foldl_nil]
    have hv1 := congrArg PAcc.valid (parseStep_property
      (some [(lit "palette", ⟨true, val⟩)]) ⟨[], [], [], [], [], []⟩
      (1, canonLine (lit "palette") v1) (lit "palette") v1 (by decide)
      (hpl v1 1 h1t))
    have hv2 := congrArg PAcc.valid (parseStep_property
      (some [(lit "palette", ⟨true, val⟩)])
      (parseStep (some [(lit "palette", ⟨true, val⟩)]) ⟨[], [], [], [], [], []⟩
        (1, canonLine (lit "palette") v1))
      (2, canonLine (lit "palette") v2) (lit "palette") v2 (by decide)
      (hpl v2 2 h2t))
    have hv3 := congrArg PAcc.valid (parseStep_property
      (some [(lit "palette", ⟨true, val⟩)])
      (parseStep (some [(lit "palette", ⟨true, val⟩)])
        (parseStep (some [(lit "palette", ⟨true, val⟩)]) ⟨[], [], [], [], [], []⟩
          (1, canonLine (lit "palette") v1))
        (2, canonLine (lit "palette") v2))
      (3, canonLine (lit "palette") v3) (lit "palette") v3 (by decide)
      (hpl v3 3 h3t))
    have hv4 := congrArg PAcc.valid (parseStep_blank
      (some [(lit "palette", ⟨true, val⟩)])
      (parseStep (some [(lit "palette", ⟨true, val⟩)])
        (parseStep (some [(lit "palette", ⟨true, val⟩)])
          (parseStep (some [(lit "palette", ⟨true, val⟩)]) ⟨[], [], [], [], [], []⟩
            (1, canonLine (lit "palette") v1))
          (2, canonLine (lit "palette") v2))
        (3, canonLine (lit "palette") v3))
      (4, []) hplb)
    simp only at hv1 hv2 hv3 hv4
    rw [hv1] at hv2
    rw [hv2] at hv3
    rw [hv3] at hv4
    rw [hv4]
    simp [mapGet, mapSet, prevArr, isRepeatableOf]
  refine ⟨hvalid, ?_⟩
  -- saver side
  simp only [saveConfigFile]
  rw [hlines]
  simp only [List.foldl_cons, List.foldl_nil]
  have hs1 : saveLine
      ⟨[(lit "palette", ValueV.arr [v1, v3])], [], [],
        some [(lit "palette", ⟨true, val⟩)]⟩ ⟨[], []⟩
      ⟨.property, canonLine (lit "palette") v1, 1, some (lit "palette"),
        some v1, canonLine (lit "palette") v1⟩
      = ⟨[canonLine (lit "palette") v1, canonLine (lit "palette") v3],
          [lit "palette"]⟩ := by
    have hktr : keyTruthy (some (lit "palette")) = true := by decide
    simp [saveLine, hktr, listHas, mapGet, isRepeatableOf]
  have hs2 : ∀ (vv : Str) (n : Nat), saveLine
      ⟨[(lit "palette", ValueV.arr [v1, v3])], [], [],
        some [(lit "palette", ⟨true, val⟩)]⟩
      ⟨[canonLine (lit "palette") v1, canonLine (lit "palette") v3],
        [lit "palette"]⟩
      ⟨.property, canonLine (lit "palette") vv, n, some (lit "palette"),
        some vv, canonLine (lit "palette") vv⟩
      = ⟨[canonLine (lit "palette") v1, canonLine (lit "palette") v3],
          [lit "palette"]⟩ := by
    intro vv n
    have hktr : keyTruthy (some (lit "palette")) = true := by decide
    have hhas : listHas [lit "palette"] (lit "palette") = true := by decide
    simp [saveLine, hktr, hhas, mapGet, isRepeatableOf]
  have hs4 : saveLine
      ⟨[(lit "palette", ValueV.arr [v1, v3])], [], [],
        some [(lit "palette", ⟨true, val⟩)]⟩
      ⟨[canonLine (lit "palette") v1, canonLine (lit "palette") v3],
        [lit "palette"]⟩
      ⟨.blank, [], 4, none, none, []⟩
      = ⟨[canonLine (lit "palette") v1, canonLine (lit "palette") v3, []],
          [lit "palette"]⟩ := by
    simp [saveLine]
  rw [hs1, hs2 v2 2, hs2 v3 3, hs4]
  rw [if_neg (by simp)]
  show ensureNl (joinCh '\n' [canonLine (lit "palette") v1,
      canonLine (lit "palette") v3, []]) = _
  have hjoin : joinCh '\n' [canonLine (lit "palette") v1,
      canonLine (lit "palette") v3, []]
      = (canonLine (lit "palette") v1 ++ '\n' :: canonLine (lit "palette") v3)
        ++ ['\n'] := by
    simp [joinCh]
  rw [hjoin]
  unfold ensureNl
  rw [if_pos (endsNl_append_nl _)]
  simp

/-- Claim C4, witness at the concrete palette values from the
specification. -/
theorem repeatable_aggregation_witness :
    (parseConfigFile
        (canonLine (lit "palette") (lit "0=#111") ++ '\n' ::
          (canonLine (lit "palette") (lit "1=#222") ++ '\n' ::
            (canonLine (lit "palette") (lit "2=#333") ++ ['\n'])))
        (some [(lit "palette", ⟨true, fun _ => none⟩)])).parseResult.valid
      = [(lit "palette", ValueV.arr [lit "0=#111", lit "1=#222", lit "2=#333"])]
    ∧ saveConfigFile
        (parseConfigFile
          (canonLine (lit "palette") (lit "0=#111") ++ '\n' ::
            (canonLine (lit "palette") (lit "1=#222") ++ '\n' ::
              (canonLine (lit "palette") (lit "2=#333") ++ ['\n'])))
          (some [(lit "palette", ⟨true, fun _ => none⟩)]))
        ⟨[(lit "palette", ValueV.arr [lit "0=#111", lit "2=#333"])], [], [],
          some [(lit "palette", ⟨true, fun _ => none⟩)]⟩
      = canonLine (lit "palette") (lit "0=#111") ++ '\n' ::
          (canonLine (lit "palette") (lit "2=#333") ++ ['\n']) :=
  repeatable_aggregation_and_block_rewrite (lit "0=#111") (lit "1=#222")
    (lit "2=#333") (fun _ => none)
    (by decide) (by decide) (by decide) (by decide) (by decide) (by decide)

/-- Claim C2 (refuted by the code, supporting the code-bug verdict): the
embedded `saveConfig` from `src/stores/configStore.ts` performs no
staleness check before writing.  Its result is the same for every on-disk
modification timestamp — the body never consults `diskMtime`, mirroring
that the TypeScript function never invokes `get_file_metadata` — and with
a file loaded it unconditionally writes, returning no
staleness-distinguishable outcome, even when the on-disk timestamp
differs from the timestamp captured at load or last save. -/
theorem saveConfig_no_staleness_check (st : StoreState) (path : Str)
    (pm : PMap) (pf : ParsedConfigFile) (loadTs diskMtime now : Nat)
    (hfp : st.filePath = some path)
    (hschema : st.schema = some pm)
    (hpf : st.parsedFile = some pf)
    (hts : st.lastSavedTimestamp = some loadTs)
    (hstale : diskMtime ≠ loadTs) :
    (∀ t : Nat, saveConfig st t now = saveConfig st diskMtime now)
    ∧ ∃ content : Str, saveConfig st diskMtime now
        = .wrote path content
            { st with originalConfig := st.config,
                      lastSavedTimestamp := some now } := by
  refine ⟨fun t => rfl, ?_⟩
  unfold saveConfig
  rw [hfp, hschema, hpf]
  exact ⟨_, rfl⟩

/-- Claim C2, witness: a loaded one-line config whose on-disk timestamp
(999) differs from the load-time timestamp (100) is still written
unconditionally. -/
theorem saveConfig_no_staleness_check_witness :
    (∀ t : Nat, saveConfig
        ⟨some [], [], [], some (parseConfigFile (lit "a = b") (some [])),
          some (lit "/tmp/config"), some 100⟩ t 50
      = saveConfig
        ⟨some [], [], [], some (parseConfigFile (lit "a = b") (some [])),
          some (lit "/tmp/config"), some 100⟩ 999 50)
    ∧ ∃ content : Str, saveConfig
        ⟨some [], [], [], some (parseConfigFile (lit "a = b") (some [])),
          some (lit "/tmp/config"), some 100⟩ 999 50
      = .wrote (lit "/tmp/config") content
          { schema := some [], config := [], originalConfig := [],
            parsedFile := some (parseConfigFile (lit "a = b") (some [])),
            filePath := some (lit "/tmp/config"),
            lastSavedTimestamp := some 50 } :=
  saveConfig_no_staleness_check
    ⟨some [], [], [], some (parseConfigFile (lit "a = b") (some [])),
      some (lit "/tmp/config"), some 100⟩
    (lit "/tmp/config") [] (parseConfigFile (lit "a = b") (some []))
    100 999 50 rfl rfl rfl rfl (by decide)

end GhosttyConfig
